import Mathlib

/-
Verification of the claude-chill byte-stream components against their
specification.  The definitions below are shallow embeddings of the Rust
sources:
  crates/claude-chill/src/escape_parser.rs     (Sequence Scanner)
  crates/claude-chill/src/output_processor.rs  (Sync Engine)
  crates/claude-chill/src/line_buffer.rs       (History Buffer)
  crates/claude-chill/src/script_parser.rs     (recording-wrapper stripper)
Bytes are modelled as Nat (values < 256 in all uses); u16 parameters use
explicit saturation at 65535; u8 casts use explicit % 256.
-/

namespace ClaudeChill

/-! ## Sequence Scanner: escape_parser.rs -/

inductive ParserState where
  | Ground
  | Escape
  | CsiEntry
  | CsiParam
  | CsiIntermediate
  | OscString
  | DcsString
deriving DecidableEq

inductive Color where
  | Default : Color
  | Indexed : Nat → Color
  | Rgb : Nat → Nat → Nat → Color
deriving DecidableEq

structure SgrCode where
  reset : Bool
  fg : Option Color
  bg : Option Color
deriving DecidableEq

def SgrCode.default : SgrCode := ⟨false, none, none⟩

inductive ParsedEscape where
  | SyncStart
  | SyncEnd
  | ClearScreen
  | ClearScrollback
  | CursorHome
  | CursorUp : Nat → ParsedEscape
  | CursorCol : Nat → ParsedEscape
  | ClearLine
  | Newline
  | CarriageReturn
  | Sgr : SgrCode → ParsedEscape
  | Other
deriving DecidableEq

structure EscapeParser where
  state : ParserState
  params : List Nat
  intermediate : List Nat
deriving DecidableEq

def EscapeParser.new : EscapeParser := ⟨ParserState.Ground, [], []⟩

def EscapeParser.in_escape_sequence (p : EscapeParser) : Prop :=
  p.state ≠ ParserState.Ground

instance (p : EscapeParser) : Decidable p.in_escape_sequence :=
  instDecidableNot

/-- u16 saturating_add -/
def satAdd (a b : Nat) : Nat := min (a + b) 65535

/-- u16 saturating_mul -/
def satMul (a b : Nat) : Nat := min (a * b) 65535

/-- last_mut folding of a decimal digit into the last parameter
(no-op when the parameter list is empty, as in the Rust if-let). -/
def updateLast (ps : List Nat) (d : Nat) : List Nat :=
  match ps.getLast? with
  | none => ps
  | some last => ps.dropLast ++ [satAdd (satMul last 10) d]

/-- SGR decoding loop of parse_sgr, walking the parameter list left to
right; 38/48 consume 2+3 further params for RGB or 5+1 for indexed, and
when too few parameters remain the introducer falls through to the
default arm exactly as the Rust index arithmetic does. -/
def parseSgrLoop : SgrCode → List Nat → SgrCode
  | sgr, [] => sgr
  | sgr, 0 :: rest => parseSgrLoop { sgr with reset := true } rest
  | sgr, 38 :: 2 :: r :: g :: b :: rest' =>
      parseSgrLoop { sgr with fg := some (Color.Rgb (r % 256) (g % 256) (b % 256)) } rest'
  | sgr, 38 :: 5 :: ix :: rest' =>
      parseSgrLoop { sgr with fg := some (Color.Indexed (ix % 256)) } rest'
  | sgr, 38 :: rest => parseSgrLoop sgr rest
  | sgr, 48 :: 2 :: r :: g :: b :: rest' =>
      parseSgrLoop { sgr with bg := some (Color.Rgb (r % 256) (g % 256) (b % 256)) } rest'
  | sgr, 48 :: 5 :: ix :: rest' =>
      parseSgrLoop { sgr with bg := some (Color.Indexed (ix % 256)) } rest'
  | sgr, 48 :: rest => parseSgrLoop sgr rest
  | sgr, 39 :: rest => parseSgrLoop { sgr with fg := some Color.Default } rest
  | sgr, 49 :: rest => parseSgrLoop { sgr with bg := some Color.Default } rest
  | sgr, _ :: rest => parseSgrLoop sgr rest

def parse_sgr (p : EscapeParser) : SgrCode := parseSgrLoop SgrCode.default p.params

def dispatch_csi (p : EscapeParser) (byte : Nat) : EscapeParser × Option ParsedEscape :=
  if byte = 72 then   -- 'H'
    if p.params = [] ∨ (p.params.length = 2 ∧ p.params.getD 0 0 ≤ 1 ∧ p.params.getD 1 0 ≤ 1) then
      (p, some ParsedEscape.CursorHome)
    else (p, some ParsedEscape.Other)
  else if byte = 74 then  -- 'J'
    match p.params.headD 0 with
    | 2 => (p, some ParsedEscape.ClearScreen)
    | 3 => (p, some ParsedEscape.ClearScrollback)
    | _ => (p, some ParsedEscape.Other)
  else if byte = 65 then  -- 'A'
    (p, some (ParsedEscape.CursorUp (max (p.params.headD 1) 1)))
  else if byte = 71 then  -- 'G'
    (p, some (ParsedEscape.CursorCol (p.params.headD 1)))
  else if byte = 75 then  -- 'K'
    (p, some ParsedEscape.ClearLine)
  else if byte = 109 then -- 'm'
    (p, some (ParsedEscape.Sgr (parse_sgr p)))
  else (p, some ParsedEscape.Other)

def dispatch_private_csi (p : EscapeParser) (byte : Nat) : EscapeParser × Option ParsedEscape :=
  if p.intermediate.head? = some 63 then
    if p.params.headD 0 = 2026 ∧ byte = 104 then (p, some ParsedEscape.SyncStart)
    else if p.params.headD 0 = 2026 ∧ byte = 108 then (p, some ParsedEscape.SyncEnd)
    else (p, some ParsedEscape.Other)
  else (p, some ParsedEscape.Other)

def ground (p : EscapeParser) (byte : Nat) : EscapeParser × Option ParsedEscape :=
  if byte = 27 then ({ p with state := ParserState.Escape }, none)
  else if byte = 10 then (p, some ParsedEscape.Newline)
  else if byte = 13 then (p, some ParsedEscape.CarriageReturn)
  else (p, none)

def escapeState (p : EscapeParser) (byte : Nat) : EscapeParser × Option ParsedEscape :=
  if byte = 91 then     -- '['
    ({ p with state := ParserState.CsiEntry, params := [], intermediate := [] }, none)
  else if byte = 93 then  -- ']'
    ({ p with state := ParserState.OscString }, none)
  else if byte = 80 ∨ byte = 94 ∨ byte = 95 then  -- 'P' '^' '_'
    ({ p with state := ParserState.DcsString }, none)
  else
    ({ p with state := ParserState.Ground }, some ParsedEscape.Other)

def osc_string (p : EscapeParser) (byte : Nat) : EscapeParser × Option ParsedEscape :=
  if byte = 7 then ({ p with state := ParserState.Ground }, some ParsedEscape.Other)
  else if byte = 27 then ({ p with state := ParserState.Escape }, none)
  else (p, none)

def dcs_string (p : EscapeParser) (byte : Nat) : EscapeParser × Option ParsedEscape :=
  if byte = 27 then ({ p with state := ParserState.Escape }, none)
  else if byte = 156 then ({ p with state := ParserState.Ground }, some ParsedEscape.Other)
  else (p, none)

def csi_entry (p : EscapeParser) (byte : Nat) : EscapeParser × Option ParsedEscape :=
  if 48 ≤ byte ∧ byte ≤ 57 then
    ({ p with params := p.params ++ [byte - 48], state := ParserState.CsiParam }, none)
  else if byte = 59 then
    ({ p with params := p.params ++ [0], state := ParserState.CsiParam }, none)
  else if byte = 63 then
    ({ p with intermediate := p.intermediate ++ [byte], state := ParserState.CsiIntermediate }, none)
  else if 64 ≤ byte ∧ byte ≤ 126 then
    dispatch_csi { p with state := ParserState.Ground } byte
  else
    ({ p with state := ParserState.Ground }, some ParsedEscape.Other)

def csi_param (p : EscapeParser) (byte : Nat) : EscapeParser × Option ParsedEscape :=
  if 48 ≤ byte ∧ byte ≤ 57 then
    ({ p with params := updateLast p.params (byte - 48) }, none)
  else if byte = 59 then
    ({ p with params := p.params ++ [0] }, none)
  else if 64 ≤ byte ∧ byte ≤ 126 then
    dispatch_csi { p with state := ParserState.Ground } byte
  else
    ({ p with state := ParserState.Ground }, some ParsedEscape.Other)

def csi_intermediate (p : EscapeParser) (byte : Nat) : EscapeParser × Option ParsedEscape :=
  if 48 ≤ byte ∧ byte ≤ 57 then
    (if p.params = [] then { p with params := [byte - 48] }
     else { p with params := updateLast p.params (byte - 48) }, none)
  else if byte = 59 then
    ({ p with params := p.params ++ [0] }, none)
  else if 64 ≤ byte ∧ byte ≤ 126 then
    dispatch_private_csi { p with state := ParserState.Ground } byte
  else
    ({ p with intermediate := p.intermediate ++ [byte] }, none)

def feed (p : EscapeParser) (byte : Nat) : EscapeParser × Option ParsedEscape :=
  match p.state with
  | ParserState.Ground => ground p byte
  | ParserState.Escape => escapeState p byte
  | ParserState.CsiEntry => csi_entry p byte
  | ParserState.CsiParam => csi_param p byte
  | ParserState.CsiIntermediate => csi_intermediate p byte
  | ParserState.OscString => osc_string p byte
  | ParserState.DcsString => dcs_string p byte

/-! ## Canonical markers: escape_sequences.rs -/

def SYNC_START : List Nat := [27, 91, 63, 50, 48, 50, 54, 104]

def SYNC_END : List Nat := [27, 91, 63, 50, 48, 50, 54, 108]

/-! ## Sync Engine: output_processor.rs -/

structure OutputProcessor where
  parser : EscapeParser
  in_sync_block : Bool
  sync_buffer : List Nat
  passthrough_buffer : List Nat
  pending_escape : List Nat
deriving DecidableEq

def OutputProcessor.new : OutputProcessor :=
  ⟨EscapeParser.new, false, [], [], []⟩

def flush_pending_escape (op : OutputProcessor) : OutputProcessor :=
  if op.in_sync_block then
    { op with sync_buffer := op.sync_buffer ++ op.pending_escape, pending_escape := [] }
  else
    { op with passthrough_buffer := op.passthrough_buffer ++ op.pending_escape,
              pending_escape := [] }

/-- Lines 70-80 of the process loop body: flush staged bytes once the
parser has left the escape state, then route the current byte to the
pending stage, the open sync block, or the passthrough buffer. -/
def routeByte (op : OutputProcessor) (output : List Nat) (byte : Nat) :
    OutputProcessor × List Nat :=
  let op := if ¬ op.parser.in_escape_sequence ∧ op.pending_escape ≠ [] then
              flush_pending_escape op
            else op
  let op :=
    if op.parser.in_escape_sequence then
      { op with pending_escape := op.pending_escape ++ [byte] }
    else if op.in_sync_block then
      { op with sync_buffer := op.sync_buffer ++ [byte] }
    else
      { op with passthrough_buffer := op.passthrough_buffer ++ [byte] }
  (op, output)

/-- One iteration of the for-loop in OutputProcessor::process. -/
def processByte (st : OutputProcessor × List Nat) (byte : Nat) :
    OutputProcessor × List Nat :=
  let op := st.1
  let output := st.2
  let in_escape := op.parser.in_escape_sequence
  let op := if in_escape ∧ op.pending_escape = [] then
              { op with pending_escape := [27] }
            else op
  let fed := feed op.parser byte
  let op := { op with parser := fed.1 }
  match fed.2 with
  | some ParsedEscape.SyncStart =>
      let pair := if op.passthrough_buffer ≠ [] then
                    (output ++ op.passthrough_buffer, ([] : List Nat))
                  else (output, op.passthrough_buffer)
      ({ op with passthrough_buffer := pair.2, pending_escape := [],
                 in_sync_block := true, sync_buffer := SYNC_START }, pair.1)
  | some ParsedEscape.SyncEnd =>
      let op := { op with pending_escape := [] }
      if op.in_sync_block then
        ({ op with sync_buffer := op.sync_buffer ++ SYNC_END, in_sync_block := false },
         output ++ (op.sync_buffer ++ SYNC_END))
      else (op, output)
  | some _ => routeByte (flush_pending_escape op) output byte
  | none => routeByte op output byte

/-- Final emission step of OutputProcessor::process (lines 87-89): move
a non-empty passthrough buffer to the output. -/
def processEmit (op : OutputProcessor) (output : List Nat) : OutputProcessor × List Nat :=
  (op, if op.passthrough_buffer ≠ [] then output ++ op.passthrough_buffer else output)

/-- Epilogue of OutputProcessor::process (lines 83-91): flush any
still-pending escape bytes, then emit the passthrough buffer. -/
def processFinish (folded : OutputProcessor × List Nat) : OutputProcessor × List Nat :=
  processEmit
    (if folded.1.pending_escape ≠ [] then flush_pending_escape folded.1 else folded.1)
    folded.2

/-- Prologue and loop of OutputProcessor::process (lines 31-81): clear
the passthrough buffer, then run the per-byte loop over the chunk. -/
def processRun (op : OutputProcessor) (data : List Nat) : OutputProcessor × List Nat :=
  data.foldl processByte ({ op with passthrough_buffer := [] }, [])

/-- OutputProcessor::process on a whole chunk. -/
def process (op : OutputProcessor) (data : List Nat) : OutputProcessor × List Nat :=
  processFinish (processRun op data)

/-- Modelled from the spec: the Session Orchestrator (crates/claude-chill/
src/proxy.rs, referenced from bin.rs but absent from the sources) force-
closes a sync block still open at session end; per the data model a sync
block "closes on sync-end (or forced-closed at session end)" with the
round-trip guarantee of zero data loss, so the buffered block content is
emitted unchanged. -/
def forcedClose (op : OutputProcessor) : List Nat :=
  if op.in_sync_block then op.sync_buffer else []

/-! ## History Buffer: line_buffer.rs -/

structure LineBuffer where
  lines : List (List Nat)
  current_line : List Nat
  max_lines : Nat
  cached_bytes : Nat
deriving DecidableEq

def LineBuffer.new (max_lines : Nat) : LineBuffer := ⟨[], [], max_lines, 0⟩

def push_byte (lb : LineBuffer) (byte : Nat) : LineBuffer :=
  if byte = 10 then
    if (lb.lines ++ [lb.current_line]).length > lb.max_lines then
      match lb.lines ++ [lb.current_line] with
      | [] =>
          { lb with lines := lb.lines ++ [lb.current_line], current_line := [],
                    cached_bytes := lb.cached_bytes + lb.current_line.length + 1 }
      | removed :: rest =>
          { lb with lines := rest, current_line := [],
                    cached_bytes :=
                      lb.cached_bytes + lb.current_line.length + 1 - (removed.length + 1) }
    else
      { lb with lines := lb.lines ++ [lb.current_line], current_line := [],
                cached_bytes := lb.cached_bytes + lb.current_line.length + 1 }
  else
    { lb with current_line := lb.current_line ++ [byte] }

def push_bytes (lb : LineBuffer) (bytes : List Nat) : LineBuffer :=
  bytes.foldl push_byte lb

def LineBuffer.clear (lb : LineBuffer) : LineBuffer :=
  { lb with lines := [], current_line := [], cached_bytes := 0 }

def line_count (lb : LineBuffer) : Nat :=
  lb.lines.length + (if lb.current_line = [] then 0 else 1)

def total_bytes (lb : LineBuffer) : Nat :=
  lb.cached_bytes + lb.current_line.length

/-- Shared emission loop: append completed lines, each followed by its
newline terminator. -/
def appendLines (lines : List (List Nat)) (output : List Nat) : List Nat :=
  lines.foldl (fun acc line => acc ++ line ++ [10]) output

def append_last_n_lines (lb : LineBuffer) (n : Nat) (output : List Nat) : List Nat :=
  if lb.current_line ≠ [] ∧ line_count lb - n < line_count lb then
    appendLines (lb.lines.drop (min (line_count lb - n) lb.lines.length)) output
      ++ lb.current_line
  else
    appendLines (lb.lines.drop (min (line_count lb - n) lb.lines.length)) output

def append_all (lb : LineBuffer) (output : List Nat) : List Nat :=
  if lb.current_line ≠ [] then appendLines lb.lines output ++ lb.current_line
  else appendLines lb.lines output

/-! ## Recording-wrapper stripper: script_parser.rs -/

def scriptStartedMarker : List Nat :=
  [83, 99, 114, 105, 112, 116, 32, 115, 116, 97, 114, 116, 101, 100, 32, 111, 110]

def footerMarker : List Nat :=
  [10, 83, 99, 114, 105, 112, 116, 32, 100, 111, 110, 101, 32, 111, 110]

/-- Index of the first newline byte, mirroring the enumerate loop. -/
def firstNewlineIdx : List Nat → Option Nat
  | [] => none
  | b :: rest => if b = 10 then some 0 else (firstNewlineIdx rest).map (· + 1)

def find_script_header_end (data : List Nat) : Nat :=
  if data.take scriptStartedMarker.length = scriptStartedMarker then
    match firstNewlineIdx data with
    | some i => i + 1
    | none => 0
  else 0

/-- Reverse scan of find_script_footer_start, trying index i, i-1, ..., 0
and returning data.length when no window matches. -/
def footerScanAux (data : List Nat) : Nat → Nat
  | 0 => if (data.drop 0).take footerMarker.length = footerMarker then 0 else data.length
  | i + 1 =>
      if (data.drop (i + 1)).take footerMarker.length = footerMarker then i + 1
      else footerScanAux data i

def find_script_footer_start (data : List Nat) : Nat :=
  if data.length ≤ footerMarker.length then data.length
  else footerScanAux data (data.length - footerMarker.length - 1)

/-- Header-stripping loop of strip_script_wrapper.  Each iteration with a
nonzero header end drops at least one byte, so data.length iterations
always suffice; the fuel never truncates the loop. -/
def stripHeaderLoopF : Nat → List Nat → List Nat
  | 0, d => d
  | fuel + 1, d =>
      let e := find_script_header_end d
      if e = 0 then d else stripHeaderLoopF fuel (d.drop e)

def stripHeaderLoop (d : List Nat) : List Nat := stripHeaderLoopF d.length d

/-- Footer-stripping loop of strip_script_wrapper.  Each iteration
truncates to a strictly shorter list, so data.length iterations always
suffice; the fuel never truncates the loop. -/
def stripFooterLoopF : Nat → List Nat → List Nat
  | 0, d => d
  | fuel + 1, d =>
      let f := find_script_footer_start d
      if f < d.length then stripFooterLoopF fuel (d.take f) else d

def stripFooterLoop (d : List Nat) : List Nat := stripFooterLoopF d.length d

def strip_script_wrapper (data : List Nat) : List Nat :=
  stripFooterLoop (stripHeaderLoop data)

/-! ## Specification-side notions used to state the claims -/

/-- A byte segment free of the escape byte 0x1b. -/
def EscFree (s : List Nat) : Prop := ∀ b ∈ s, b ≠ 27

instance (s : List Nat) : Decidable (EscFree s) := by
  unfold EscFree
  infer_instance

/-- The bytes of a complete escape sequence after its initial ESC byte:
fed from the given parser, every byte but the last yields no event and
keeps the parser out of Ground, and the last byte dispatches an event
that is neither sync-start nor sync-end, returning the parser to
Ground. -/
def EscBody : EscapeParser → List Nat → Prop
  | _, [] => False
  | p, [b] =>
      (feed p b).1.state = ParserState.Ground ∧
      (feed p b).2 ≠ none ∧
      (feed p b).2 ≠ some ParsedEscape.SyncStart ∧
      (feed p b).2 ≠ some ParsedEscape.SyncEnd
  | p, b :: rest =>
      (feed p b).2 = none ∧
      (feed p b).1.state ≠ ParserState.Ground ∧
      EscBody (feed p b).1 rest

/-- A well-formed plain segment: a concatenation of units, each either a
single non-ESC byte or a complete escape sequence that does not resolve
to a sync marker.  The escape unit is required for every stale parameter
state, which holds of every genuine sequence since dispatch parameters
are reset when the sequence enters CSI and are unread elsewhere. -/
inductive WfSeg : List Nat → Prop
  | nil : WfSeg []
  | plain (b : Nat) (rest : List Nat) : b ≠ 27 → WfSeg rest →
      WfSeg (b :: rest)
  | esc (body rest : List Nat) :
      (∀ ps its : List Nat, EscBody ⟨ParserState.Escape, ps, its⟩ body) →
      WfSeg rest → WfSeg (27 :: body ++ rest)

/-- Streams made of well-formed plain segments (plain bytes and complete
non-sync escape sequences) and well-formed sync blocks with canonical
markers and no nesting; the stream may end with a plain segment, with a
block whose sync-end is the last bytes of the input, or with a block
left open at end of input. -/
inductive WfStream : List Nat → Prop
  | done (s : List Nat) : WfSeg s → WfStream s
  | openBlock (s c : List Nat) : WfSeg s → WfSeg c →
      WfStream (s ++ SYNC_START ++ c)
  | block (s c rest : List Nat) : WfSeg s → WfSeg c → WfStream rest →
      WfStream (s ++ SYNC_START ++ c ++ SYNC_END ++ rest)

/-- Whether a pattern occurs in full at the head of a byte list. -/
def hasPat : List Nat → List Nat → Bool
  | [], _ => true
  | _ :: _, [] => false
  | p :: ps, b :: bs => decide (p = b) && hasPat ps bs

/-- Number of windows of a byte list equal to a pattern (sliding-window
occurrence count, as in the repository's sync-marker counting). -/
def countPat (pat : List Nat) : List Nat → Nat
  | [] => 0
  | b :: rest => (if hasPat pat (b :: rest) then 1 else 0) + countPat pat rest

/-- Concatenation of completed lines, each with its newline terminator. -/
def joinLines : List (List Nat) → List Nat
  | [] => []
  | l :: ls => l ++ [10] ++ joinLines ls

/-- The last n elements of a list. -/
def lastN (n : Nat) (xs : List (List Nat)) : List (List Nat) :=
  xs.drop (xs.length - n)

/-- Byte accounting of stored completed lines: length plus one per line. -/
def sumBytes : List (List Nat) → Nat
  | [] => 0
  | l :: ls => l.length + 1 + sumBytes ls

/-- A record/push or clear operation on the History Buffer. -/
inductive HistoryOp where
  | push : Nat → HistoryOp
  | clearAll : HistoryOp

def applyOp (lb : LineBuffer) : HistoryOp → LineBuffer
  | HistoryOp.push b => push_byte lb b
  | HistoryOp.clearAll => lb.clear

def applyOps (lb : LineBuffer) (ops : List HistoryOp) : LineBuffer :=
  ops.foldl applyOp lb

/-! ## Scanner lemmas -/

lemma dispatch_csi_fst (p : EscapeParser) (b : Nat) : (dispatch_csi p b).1 = p := by
  unfold dispatch_csi
  split_ifs <;> first | rfl | (split <;> rfl)

lemma dispatch_private_csi_fst (p : EscapeParser) (b : Nat) :
    (dispatch_private_csi p b).1 = p := by
  unfold dispatch_private_csi
  split_ifs <;> rfl

lemma dispatch_csi_isSome (p : EscapeParser) (b : Nat) :
    ∃ e, (dispatch_csi p b).2 = some e := by
  unfold dispatch_csi
  split_ifs <;> first | exact ⟨_, rfl⟩ | (split <;> exact ⟨_, rfl⟩)

lemma dispatch_private_csi_isSome (p : EscapeParser) (b : Nat) :
    ∃ e, (dispatch_private_csi p b).2 = some e := by
  unfold dispatch_private_csi
  split_ifs <;> exact ⟨_, rfl⟩

/-- Claim C4: the Scanner's feed is a total function — for every parser
state and every input byte it returns either no event or some event —
and whenever feed returns an event the parser state is Ground
immediately afterwards, so the next byte is classified from ground. -/
theorem claim_C4_feed_total_and_ground (p : EscapeParser) (b : Nat) :
    ((feed p b).2 = none ∨ ∃ e, (feed p b).2 = some e) ∧
    (∀ e, (feed p b).2 = some e → (feed p b).1.state = ParserState.Ground) := by
  constructor
  · cases h : (feed p b).2
    · exact Or.inl rfl
    · exact Or.inr ⟨_, rfl⟩
  · intro e he
    obtain ⟨st, ps, its⟩ := p
    cases st <;>
      simp only [feed, ground, escapeState, csi_entry, csi_param, csi_intermediate,
        osc_string, dcs_string] at he ⊢ <;>
      split_ifs at he ⊢ <;>
      first
        | rfl
        | exact absurd he (by simp)
        | (rw [dispatch_csi_fst])
        | (rw [dispatch_private_csi_fst])

/-- Witness for claim C4 at a concrete parser and byte: feeding a line
feed byte from ground returns the Newline event and leaves the state
Ground. -/
theorem claim_C4_witness :
    (feed EscapeParser.new 10).2 = some ParsedEscape.Newline ∧
    (feed EscapeParser.new 10).1.state = ParserState.Ground :=
  ⟨by decide, (claim_C4_feed_total_and_ground EscapeParser.new 10).2
    ParsedEscape.Newline (by decide)⟩

/-! ## Sync Engine: claim C2 -/

lemma processFinish_fst_pending (folded : OutputProcessor × List Nat) :
    (processFinish folded).1.pending_escape = [] := by
  unfold processFinish processEmit
  dsimp only
  split_ifs with h
  · unfold flush_pending_escape
    split_ifs <;> rfl
  · simpa using h

lemma processFinish_no_pending (op' : OutputProcessor) (out : List Nat)
    (hp : op'.pending_escape = []) :
    processFinish (op', out) = (op', out ++ op'.passthrough_buffer) := by
  unfold processFinish processEmit
  dsimp only
  rw [if_neg (not_not_intro hp)]
  by_cases h : op'.passthrough_buffer = []
  · rw [if_neg (not_not_intro h), h, List.append_nil]
  · rw [if_pos h]

lemma processRun_new (data : List Nat) :
    processRun OutputProcessor.new data =
      data.foldl processByte (OutputProcessor.new, []) := rfl

lemma processRun_clean (op : OutputProcessor) (data : List Nat)
    (hpt : op.passthrough_buffer = []) :
    processRun op data = data.foldl processByte (op, []) := by
  unfold processRun
  have h1 : ({ op with passthrough_buffer := [] } : OutputProcessor) = op := by
    rw [← hpt]
  rw [h1]

/-- Counterexample to claim C2 as stated: processing the escape sequence
ESC [ 2 J split as the chunks [ESC] and [ [ 2 J ], the first call emits
the staged ESC byte of the still-open sequence (a partial escape
sequence), and the concatenated two-chunk output differs from the
one-chunk output. -/
theorem claim_C2_counterexample :
    (process OutputProcessor.new [27]).2 ≠ [] ∧
    (process OutputProcessor.new [27]).2 ++
        (process (process OutputProcessor.new [27]).1 [91, 50, 74]).2 ≠
      (process OutputProcessor.new [27, 91, 50, 74]).2 := by
  exact ⟨by decide, by decide⟩

/-- Claim C2 as amended: bytes staged for an escape sequence still open
at chunk end do not remain pending — every process call flushes them to
the open sync block or to the emitted passthrough before returning, so a
call ends with an empty staging buffer; the next call stages a fresh ESC
byte, hence a call may emit a partial escape sequence, and processing
ESC as its own chunk emits that ESC immediately. -/
theorem claim_C2_amended_pending_flushed :
    (∀ (op : OutputProcessor) (data : List Nat),
      (process op data).1.pending_escape = []) ∧
    (process OutputProcessor.new [27]).2 = [27] := by
  constructor
  · intro op data
    unfold process
    exact processFinish_fst_pending (processRun op data)
  · decide

/-! ## Sync Engine fold lemmas -/

lemma processByte_plain_pass (op : OutputProcessor) (out : List Nat) (b : Nat)
    (hb : b ≠ 27) (hg : op.parser.state = ParserState.Ground)
    (hp : op.pending_escape = []) (hs : op.in_sync_block = false) :
    processByte (op, out) b =
      ({ op with passthrough_buffer := op.passthrough_buffer ++ [b] }, out) := by
  obtain ⟨⟨st, ps, its⟩, isb, sb, pt, pe⟩ := op
  simp only at hg hp hs
  subst hg; subst hp; subst hs
  by_cases h10 : b = 10
  · subst h10
    simp [processByte, feed, ground, routeByte, flush_pending_escape,
      EscapeParser.in_escape_sequence]
  · by_cases h13 : b = 13
    · subst h13
      simp [processByte, feed, ground, routeByte, flush_pending_escape,
        EscapeParser.in_escape_sequence]
    · simp [processByte, feed, ground, routeByte, flush_pending_escape,
        EscapeParser.in_escape_sequence, hb, h10, h13]

lemma processByte_plain_sync (op : OutputProcessor) (out : List Nat) (b : Nat)
    (hb : b ≠ 27) (hg : op.parser.state = ParserState.Ground)
    (hp : op.pending_escape = []) (hs : op.in_sync_block = true) :
    processByte (op, out) b =
      ({ op with sync_buffer := op.sync_buffer ++ [b] }, out) := by
  obtain ⟨⟨st, ps, its⟩, isb, sb, pt, pe⟩ := op
  simp only at hg hp hs
  subst hg; subst hp; subst hs
  by_cases h10 : b = 10
  · subst h10
    simp [processByte, feed, ground, routeByte, flush_pending_escape,
      EscapeParser.in_escape_sequence]
  · by_cases h13 : b = 13
    · subst h13
      simp [processByte, feed, ground, routeByte, flush_pending_escape,
        EscapeParser.in_escape_sequence]
    · simp [processByte, feed, ground, routeByte, flush_pending_escape,
        EscapeParser.in_escape_sequence, hb, h10, h13]

lemma foldl_plain_pass (s : List Nat) (hf : EscFree s) :
    ∀ (op : OutputProcessor) (out : List Nat),
      op.parser.state = ParserState.Ground → op.pending_escape = [] →
      op.in_sync_block = false →
      List.foldl processByte (op, out) s =
        ({ op with passthrough_buffer := op.passthrough_buffer ++ s }, out) := by
  induction s with
  | nil => intro op out _ _ _; simp
  | cons b s ih =>
      intro op out hg hp hs
      rw [List.foldl_cons, processByte_plain_pass op out b (hf b (by simp)) hg hp hs]
      rw [ih (fun x hx => hf x (by simp [hx]))
        { op with passthrough_buffer := op.passthrough_buffer ++ [b] } out hg hp hs]
      simp

lemma foldl_plain_sync (s : List Nat) (hf : EscFree s) :
    ∀ (op : OutputProcessor) (out : List Nat),
      op.parser.state = ParserState.Ground → op.pending_escape = [] →
      op.in_sync_block = true →
      List.foldl processByte (op, out) s =
        ({ op with sync_buffer := op.sync_buffer ++ s }, out) := by
  induction s with
  | nil => intro op out _ _ _; simp
  | cons b s ih =>
      intro op out hg hp hs
      rw [List.foldl_cons, processByte_plain_sync op out b (hf b (by simp)) hg hp hs]
      rw [ih (fun x hx => hf x (by simp [hx]))
        { op with sync_buffer := op.sync_buffer ++ [b] } out hg hp hs]
      simp

/-- Folding the canonical sync-start marker bytes from a ground, empty-
staging state: staged non-sync output is flushed to the stream, staging
cleared, a fresh block opened primed with the canonical marker.  Holds
whether or not a block is already open. -/
lemma foldl_syncStart (op : OutputProcessor) (out : List Nat)
    (hg : op.parser.state = ParserState.Ground) (hp : op.pending_escape = []) :
    List.foldl processByte (op, out) SYNC_START =
      (⟨⟨ParserState.Ground, [2026], [63]⟩, true, SYNC_START, [], []⟩,
       out ++ op.passthrough_buffer) := by
  obtain ⟨⟨st, ps, its⟩, isb, sb, pt, pe⟩ := op
  simp only at hg hp
  subst hg; subst hp
  by_cases hpt : pt = []
  · subst hpt
    simp [SYNC_START, processByte, routeByte, feed, ground, escapeState, csi_entry,
      csi_intermediate, dispatch_private_csi, flush_pending_escape,
      EscapeParser.in_escape_sequence, updateLast, satAdd, satMul]
  · simp [SYNC_START, processByte, routeByte, feed, ground, escapeState, csi_entry,
      csi_intermediate, dispatch_private_csi, flush_pending_escape,
      EscapeParser.in_escape_sequence, updateLast, satAdd, satMul, hpt]

/-- Folding the canonical sync-end marker bytes from a ground, empty-
staging state with an open block: the canonical sync-end marker is
appended to block content, the whole block moved to the output, the
block closed. -/
lemma foldl_syncEnd_open (op : OutputProcessor) (out : List Nat)
    (hg : op.parser.state = ParserState.Ground) (hp : op.pending_escape = [])
    (hs : op.in_sync_block = true) :
    List.foldl processByte (op, out) SYNC_END =
      (⟨⟨ParserState.Ground, [2026], [63]⟩, false, op.sync_buffer ++ SYNC_END,
        op.passthrough_buffer, []⟩,
       out ++ (op.sync_buffer ++ SYNC_END)) := by
  obtain ⟨⟨st, ps, its⟩, isb, sb, pt, pe⟩ := op
  simp only at hg hp hs
  subst hg; subst hp; subst hs
  simp [SYNC_END, processByte, routeByte, feed, ground, escapeState, csi_entry,
    csi_intermediate, dispatch_private_csi, flush_pending_escape,
    EscapeParser.in_escape_sequence, updateLast, satAdd, satMul]

/-- Folding the canonical sync-end marker bytes when no block is open:
the raw marker bytes are consumed, buffers and output untouched. -/
lemma foldl_syncEnd_closed (op : OutputProcessor) (out : List Nat)
    (hg : op.parser.state = ParserState.Ground) (hp : op.pending_escape = [])
    (hs : op.in_sync_block = false) :
    List.foldl processByte (op, out) SYNC_END =
      (⟨⟨ParserState.Ground, [2026], [63]⟩, false, op.sync_buffer,
        op.passthrough_buffer, []⟩, out) := by
  obtain ⟨⟨st, ps, its⟩, isb, sb, pt, pe⟩ := op
  simp only at hg hp hs
  subst hg; subst hp; subst hs
  simp [SYNC_END, processByte, routeByte, feed, ground, escapeState, csi_entry,
    csi_intermediate, dispatch_private_csi, flush_pending_escape,
    EscapeParser.in_escape_sequence, updateLast, satAdd, satMul]

lemma flush_pending_pass (op : OutputProcessor) (hs : op.in_sync_block = false) :
    flush_pending_escape op =
      { op with passthrough_buffer := op.passthrough_buffer ++ op.pending_escape,
                pending_escape := [] } := by
  unfold flush_pending_escape
  rw [if_neg (by simp [hs])]

lemma flush_pending_sync (op : OutputProcessor) (hs : op.in_sync_block = true) :
    flush_pending_escape op =
      { op with sync_buffer := op.sync_buffer ++ op.pending_escape,
                pending_escape := [] } := by
  unfold flush_pending_escape
  rw [if_pos hs]

lemma routeByte_in_escape (op : OutputProcessor) (out : List Nat) (b : Nat)
    (h : op.parser.state ≠ ParserState.Ground) :
    routeByte op out b = ({ op with pending_escape := op.pending_escape ++ [b] }, out) := by
  have hesc : op.parser.in_escape_sequence := h
  simp [routeByte, hesc]

/-- The first byte of an escape sequence scanned from ground with empty
staging: the parser enters the escape state and the ESC byte is staged. -/
lemma processByte_escByte (op : OutputProcessor) (out : List Nat)
    (hg : op.parser.state = ParserState.Ground) (hp : op.pending_escape = []) :
    processByte (op, out) 27 =
      ({ op with parser := { op.parser with state := ParserState.Escape },
                 pending_escape := [27] }, out) := by
  obtain ⟨⟨st, ps, its⟩, isb, sb, pt, pe⟩ := op
  simp only at hg hp
  subst hg; subst hp
  simp [processByte, feed, ground, routeByte, EscapeParser.in_escape_sequence]

/-- A byte whose feed yields no event, with staging non-empty: only the
parser advances and the byte is routed. -/
lemma processByte_none_event (op : OutputProcessor) (out : List Nat) (b : Nat)
    (hpe : op.pending_escape ≠ []) (hfeed : (feed op.parser b).2 = none) :
    processByte (op, out) b
      = routeByte { op with parser := (feed op.parser b).1 } out b := by
  obtain ⟨par, isb, sb, pt, pe⟩ := op
  simp only at hpe hfeed
  simp [processByte, hpe, hfeed]

/-- A byte whose feed yields a non-sync event, with staging non-empty:
the staged bytes are flushed and the byte routed. -/
lemma processByte_other_event (op : OutputProcessor) (out : List Nat) (b : Nat)
    (e : ParsedEscape) (hpe : op.pending_escape ≠ [])
    (hfeed : (feed op.parser b).2 = some e)
    (hss : e ≠ ParsedEscape.SyncStart) (hse : e ≠ ParsedEscape.SyncEnd) :
    processByte (op, out) b
      = routeByte (flush_pending_escape { op with parser := (feed op.parser b).1 })
          out b := by
  obtain ⟨par, isb, sb, pt, pe⟩ := op
  simp only at hpe hfeed
  cases e <;>
    first
      | exact absurd rfl hss
      | exact absurd rfl hse
      | simp [processByte, hpe, hfeed]

/-- Folding the body of a complete non-sync escape sequence outside a
sync block: the staged bytes and the sequence bytes all reach the
passthrough buffer, staging ends empty, the parser back at ground. -/
lemma foldl_escBody_pass (body : List Nat) :
    ∀ p : EscapeParser, EscBody p body →
    ∀ (op : OutputProcessor) (out : List Nat), op.parser = p →
      op.pending_escape ≠ [] → op.in_sync_block = false →
      ∃ p' : EscapeParser, p'.state = ParserState.Ground ∧
        List.foldl processByte (op, out) body =
          (⟨p', false, op.sync_buffer,
            op.passthrough_buffer ++ op.pending_escape ++ body, []⟩, out) := by
  induction body with
  | nil => intro p hE; exact (hE : False).elim
  | cons b rest ih =>
      intro p hE op out hpar hpe hs
      cases rest with
      | nil =>
          obtain ⟨hgr, hne, hnss, hnse⟩ := hE
          obtain ⟨par, isb, sb, pt, pe⟩ := op
          simp only at hpar hpe hs
          subst hpar; subst hs
          rcases hev : (feed par b).2 with _ | e
          · exact absurd hev hne
          · have hss : e ≠ ParsedEscape.SyncStart := fun h => hnss (by rw [hev, h])
            have hse : e ≠ ParsedEscape.SyncEnd := fun h => hnse (by rw [hev, h])
            refine ⟨(feed par b).1, hgr, ?_⟩
            rw [List.foldl_cons, List.foldl_nil]
            rw [processByte_other_event ⟨par, false, sb, pt, pe⟩ out b e hpe hev hss hse]
            simp [flush_pending_escape, routeByte, EscapeParser.in_escape_sequence,
              hgr, List.append_assoc]
      | cons r rs =>
          obtain ⟨hnone, hng, hrec⟩ := hE
          obtain ⟨par, isb, sb, pt, pe⟩ := op
          simp only at hpar hpe hs
          subst hpar; subst hs
          rw [List.foldl_cons]
          rw [processByte_none_event ⟨par, false, sb, pt, pe⟩ out b hpe hnone]
          rw [routeByte_in_escape
            { (⟨par, false, sb, pt, pe⟩ : OutputProcessor) with parser := (feed par b).1 }
            out b hng]
          dsimp only
          obtain ⟨p', hp', heq⟩ := ih (feed par b).1 hrec
            ⟨(feed par b).1, false, sb, pt, pe ++ [b]⟩ out rfl (by simp) rfl
          refine ⟨p', hp', ?_⟩
          rw [heq]
          simp [List.append_assoc]

/-- Folding the body of a complete non-sync escape sequence inside an
open sync block: the staged bytes and the sequence bytes all reach the
block buffer, staging ends empty, the parser back at ground. -/
lemma foldl_escBody_sync (body : List Nat) :
    ∀ p : EscapeParser, EscBody p body →
    ∀ (op : OutputProcessor) (out : List Nat), op.parser = p →
      op.pending_escape ≠ [] → op.in_sync_block = true →
      ∃ p' : EscapeParser, p'.state = ParserState.Ground ∧
        List.foldl processByte (op, out) body =
          (⟨p', true, op.sync_buffer ++ op.pending_escape ++ body,
            op.passthrough_buffer, []⟩, out) := by
  induction body with
  | nil => intro p hE; exact (hE : False).elim
  | cons b rest ih =>
      intro p hE op out hpar hpe hs
      cases rest with
      | nil =>
          obtain ⟨hgr, hne, hnss, hnse⟩ := hE
          obtain ⟨par, isb, sb, pt, pe⟩ := op
          simp only at hpar hpe hs
          subst hpar; subst hs
          rcases hev : (feed par b).2 with _ | e
          · exact absurd hev hne
          · have hss : e ≠ ParsedEscape.SyncStart := fun h => hnss (by rw [hev, h])
            have hse : e ≠ ParsedEscape.SyncEnd := fun h => hnse (by rw [hev, h])
            refine ⟨(feed par b).1, hgr, ?_⟩
            rw [List.foldl_cons, List.foldl_nil]
            rw [processByte_other_event ⟨par, true, sb, pt, pe⟩ out b e hpe hev hss hse]
            simp [flush_pending_escape, routeByte, EscapeParser.in_escape_sequence,
              hgr, List.append_assoc]
      | cons r rs =>
          obtain ⟨hnone, hng, hrec⟩ := hE
          obtain ⟨par, isb, sb, pt, pe⟩ := op
          simp only at hpar hpe hs
          subst hpar; subst hs
          rw [List.foldl_cons]
          rw [processByte_none_event ⟨par, true, sb, pt, pe⟩ out b hpe hnone]
          rw [routeByte_in_escape
            { (⟨par, true, sb, pt, pe⟩ : OutputProcessor) with parser := (feed par b).1 }
            out b hng]
          dsimp only
          obtain ⟨p', hp', heq⟩ := ih (feed par b).1 hrec
            ⟨(feed par b).1, true, sb, pt, pe ++ [b]⟩ out rfl (by simp) rfl
          refine ⟨p', hp', ?_⟩
          rw [heq]
          simp [List.append_assoc]

/-- Folding a well-formed plain segment outside a sync block: every
unit's bytes reach the passthrough buffer unchanged, the parser ends at
ground, staging empty. -/
lemma foldl_wfSeg_pass (s : List Nat) (hseg : WfSeg s) :
    ∀ (op : OutputProcessor) (out : List Nat),
      op.parser.state = ParserState.Ground → op.pending_escape = [] →
      op.in_sync_block = false →
      ∃ p' : EscapeParser, p'.state = ParserState.Ground ∧
        List.foldl processByte (op, out) s =
          (⟨p', false, op.sync_buffer, op.passthrough_buffer ++ s, []⟩, out) := by
  induction hseg with
  | nil =>
      intro op out hg hp hs
      obtain ⟨par, isb, sb, pt, pe⟩ := op
      simp only at hg hp hs
      subst hp; subst hs
      exact ⟨par, hg, by simp⟩
  | plain b rest hb _ ih =>
      intro op out hg hp hs
      rw [List.foldl_cons, processByte_plain_pass op out b hb hg hp hs]
      obtain ⟨p', hp', heq⟩ := ih
        { op with passthrough_buffer := op.passthrough_buffer ++ [b] } out hg hp hs
      refine ⟨p', hp', ?_⟩
      rw [heq]
      simp [List.append_assoc]
  | esc body rest hbody _ ih =>
      intro op out hg hp hs
      rw [List.foldl_append, List.foldl_cons, processByte_escByte op out hg hp]
      obtain ⟨p₁, hp₁, heq₁⟩ := foldl_escBody_pass body
        ⟨ParserState.Escape, op.parser.params, op.parser.intermediate⟩
        (hbody op.parser.params op.parser.intermediate)
        { op with parser := { op.parser with state := ParserState.Escape },
                  pending_escape := [27] }
        out rfl (by simp) hs
      rw [heq₁]
      dsimp only
      obtain ⟨p₂, hp₂, heq₂⟩ := ih
        ⟨p₁, false, op.sync_buffer, op.passthrough_buffer ++ [27] ++ body, []⟩
        out hp₁ rfl rfl
      refine ⟨p₂, hp₂, ?_⟩
      rw [heq₂]
      simp [List.append_assoc]

/-- Folding a well-formed plain segment inside an open sync block: every
unit's bytes reach the block buffer unchanged, the parser ends at
ground, staging empty. -/
lemma foldl_wfSeg_sync (s : List Nat) (hseg : WfSeg s) :
    ∀ (op : OutputProcessor) (out : List Nat),
      op.parser.state = ParserState.Ground → op.pending_escape = [] →
      op.in_sync_block = true →
      ∃ p' : EscapeParser, p'.state = ParserState.Ground ∧
        List.foldl processByte (op, out) s =
          (⟨p', true, op.sync_buffer ++ s, op.passthrough_buffer, []⟩, out) := by
  induction hseg with
  | nil =>
      intro op out hg hp hs
      obtain ⟨par, isb, sb, pt, pe⟩ := op
      simp only at hg hp hs
      subst hp; subst hs
      exact ⟨par, hg, by simp⟩
  | plain b rest hb _ ih =>
      intro op out hg hp hs
      rw [List.foldl_cons, processByte_plain_sync op out b hb hg hp hs]
      obtain ⟨p', hp', heq⟩ := ih
        { op with sync_buffer := op.sync_buffer ++ [b] } out hg hp hs
      refine ⟨p', hp', ?_⟩
      rw [heq]
      simp [List.append_assoc]
  | esc body rest hbody _ ih =>
      intro op out hg hp hs
      rw [List.foldl_append, List.foldl_cons, processByte_escByte op out hg hp]
      obtain ⟨p₁, hp₁, heq₁⟩ := foldl_escBody_sync body
        ⟨ParserState.Escape, op.parser.params, op.parser.intermediate⟩
        (hbody op.parser.params op.parser.intermediate)
        { op with parser := { op.parser with state := ParserState.Escape },
                  pending_escape := [27] }
        out rfl (by simp) hs
      rw [heq₁]
      dsimp only
      obtain ⟨p₂, hp₂, heq₂⟩ := ih
        ⟨p₁, true, op.sync_buffer ++ [27] ++ body, op.passthrough_buffer, []⟩
        out hp₁ rfl rfl
      refine ⟨p₂, hp₂, ?_⟩
      rw [heq₂]
      simp [List.append_assoc]

/-- Processing a well-formed stream from a clean state: staging ends
empty, and the emitted output followed by the passthrough buffer and the
still-open block content reconstructs the input. -/
lemma foldl_wfStream (bs : List Nat) (h : WfStream bs) :
    ∀ (op : OutputProcessor) (out : List Nat),
      op.parser.state = ParserState.Ground → op.pending_escape = [] →
      op.in_sync_block = false →
      (List.foldl processByte (op, out) bs).1.pending_escape = [] ∧
      (List.foldl processByte (op, out) bs).2
        ++ (List.foldl processByte (op, out) bs).1.passthrough_buffer
        ++ (if (List.foldl processByte (op, out) bs).1.in_sync_block then
              (List.foldl processByte (op, out) bs).1.sync_buffer else [])
        = out ++ op.passthrough_buffer ++ bs := by
  induction h with
  | done s hsSeg =>
      intro op out hg hp hsync
      obtain ⟨p₁, _, heq₁⟩ := foldl_wfSeg_pass s hsSeg op out hg hp hsync
      rw [heq₁]
      simp
  | openBlock s c hsSeg hcSeg =>
      intro op out hg hp hsync
      rw [List.foldl_append, List.foldl_append]
      obtain ⟨p₁, hp₁, heq₁⟩ := foldl_wfSeg_pass s hsSeg op out hg hp hsync
      rw [heq₁]
      rw [foldl_syncStart ⟨p₁, false, op.sync_buffer, op.passthrough_buffer ++ s, []⟩
        out hp₁ rfl]
      dsimp only
      obtain ⟨p₂, hp₂, heq₂⟩ := foldl_wfSeg_sync c hcSeg
        ⟨⟨ParserState.Ground, [2026], [63]⟩, true, SYNC_START, [], []⟩
        (out ++ (op.passthrough_buffer ++ s)) rfl rfl rfl
      rw [heq₂]
      simp
  | block s c rest hsSeg hcSeg _ ih =>
      intro op out hg hp hsync
      rw [List.foldl_append, List.foldl_append, List.foldl_append, List.foldl_append]
      obtain ⟨p₁, hp₁, heq₁⟩ := foldl_wfSeg_pass s hsSeg op out hg hp hsync
      rw [heq₁]
      rw [foldl_syncStart ⟨p₁, false, op.sync_buffer, op.passthrough_buffer ++ s, []⟩
        out hp₁ rfl]
      dsimp only
      obtain ⟨p₂, hp₂, heq₂⟩ := foldl_wfSeg_sync c hcSeg
        ⟨⟨ParserState.Ground, [2026], [63]⟩, true, SYNC_START, [], []⟩
        (out ++ (op.passthrough_buffer ++ s)) rfl rfl rfl
      rw [heq₂]
      dsimp only
      rw [foldl_syncEnd_open ⟨p₂, true, SYNC_START ++ c, [], []⟩
        (out ++ (op.passthrough_buffer ++ s)) hp₂ rfl rfl]
      dsimp only
      obtain ⟨ihp, ihsum⟩ := ih
        ⟨⟨ParserState.Ground, [2026], [63]⟩, false, (SYNC_START ++ c) ++ SYNC_END, [], []⟩
        (out ++ (op.passthrough_buffer ++ s) ++ ((SYNC_START ++ c) ++ SYNC_END))
        rfl rfl rfl
      refine ⟨ihp, ?_⟩
      rw [ihsum]
      simp

/-- Claim C1: for every input byte stream containing well-formed sync
blocks (canonical markers, no nesting) processed as a single chunk, the
Sync Engine's emitted output — together with the forced close of a block
left open at end of input — equals the input byte for byte, for zero,
one or many blocks, including a block whose sync-end is the last bytes
of the input and a block left open at end of input. -/
theorem claim_C1_roundtrip (bs : List Nat) (h : WfStream bs) :
    (process OutputProcessor.new bs).2
      ++ forcedClose (process OutputProcessor.new bs).1 = bs := by
  obtain ⟨hpend, hsum⟩ := foldl_wfStream bs h OutputProcessor.new [] rfl rfl rfl
  rcases hF : List.foldl processByte (OutputProcessor.new, []) bs with ⟨op', out'⟩
  rw [hF] at hpend hsum
  unfold process forcedClose
  rw [processRun_new, hF, processFinish_no_pending op' out' hpend]
  dsimp only at hsum ⊢
  simpa [OutputProcessor.new, List.append_assoc] using hsum

/-- The clear-screen CSI sequence body: from the escape state, whatever
stale parameters the parser carries, the bytes of ESC [ 2 J form one
complete escape sequence ending at ground with a non-sync event. -/
lemma escBody_csi_2J (ps its : List Nat) :
    EscBody ⟨ParserState.Escape, ps, its⟩ [91, 50, 74] :=
  ⟨rfl, fun h => ParserState.noConfusion h,
   rfl, fun h => ParserState.noConfusion h,
   rfl, fun h => Option.noConfusion h,
   fun h => ParsedEscape.noConfusion (Option.some.inj h),
   fun h => ParsedEscape.noConfusion (Option.some.inj h)⟩

/-- Witness for claim C1: a stream with a plain prefix, one sync block
whose content holds a clear-screen escape sequence, and a plain suffix
round-trips exactly. -/
theorem claim_C1_witness :
    (process OutputProcessor.new
        ([97] ++ SYNC_START ++ (27 :: [91, 50, 74] ++ [98]) ++ SYNC_END ++ [99])).2
      ++ forcedClose (process OutputProcessor.new
        ([97] ++ SYNC_START ++ (27 :: [91, 50, 74] ++ [98]) ++ SYNC_END ++ [99])).1
    = [97] ++ SYNC_START ++ (27 :: [91, 50, 74] ++ [98]) ++ SYNC_END ++ [99] :=
  claim_C1_roundtrip _
    (WfStream.block [97] (27 :: [91, 50, 74] ++ [98]) [99]
      (WfSeg.plain 97 [] (by decide) WfSeg.nil)
      (WfSeg.esc [91, 50, 74] [98] escBody_csi_2J
        (WfSeg.plain 98 [] (by decide) WfSeg.nil))
      (WfStream.done [99] (WfSeg.plain 99 [] (by decide) WfSeg.nil)))

/-- Shared computation: a nested sync-start discards the open block's
buffered bytes and re-primes the block with a single canonical marker;
the closing sync-end then emits only the canonical marker, the bytes
after the second sync-start, and the canonical end marker. -/
lemma process_nested_syncStart (c₁ c₂ : List Nat) (h1 : EscFree c₁) (h2 : EscFree c₂) :
    process OutputProcessor.new
        (SYNC_START ++ c₁ ++ SYNC_START ++ c₂ ++ SYNC_END) =
      (⟨⟨ParserState.Ground, [2026], [63]⟩, false, (SYNC_START ++ c₂) ++ SYNC_END, [], []⟩,
       (SYNC_START ++ c₂) ++ SYNC_END) := by
  have e1 : List.foldl processByte (OutputProcessor.new, []) SYNC_START =
      (⟨⟨ParserState.Ground, [2026], [63]⟩, true, SYNC_START, [], []⟩, []) :=
    foldl_syncStart OutputProcessor.new [] rfl rfl
  have e2 : List.foldl processByte
      ((⟨⟨ParserState.Ground, [2026], [63]⟩, true, SYNC_START, [], []⟩ :
        OutputProcessor), []) c₁ =
      (⟨⟨ParserState.Ground, [2026], [63]⟩, true, SYNC_START ++ c₁, [], []⟩, []) :=
    foldl_plain_sync c₁ h1
      ⟨⟨ParserState.Ground, [2026], [63]⟩, true, SYNC_START, [], []⟩ [] rfl rfl rfl
  have e3 : List.foldl processByte
      ((⟨⟨ParserState.Ground, [2026], [63]⟩, true, SYNC_START ++ c₁, [], []⟩ :
        OutputProcessor), []) SYNC_START =
      (⟨⟨ParserState.Ground, [2026], [63]⟩, true, SYNC_START, [], []⟩, []) :=
    foldl_syncStart
      ⟨⟨ParserState.Ground, [2026], [63]⟩, true, SYNC_START ++ c₁, [], []⟩ [] rfl rfl
  have e4 : List.foldl processByte
      ((⟨⟨ParserState.Ground, [2026], [63]⟩, true, SYNC_START, [], []⟩ :
        OutputProcessor), []) c₂ =
      (⟨⟨ParserState.Ground, [2026], [63]⟩, true, SYNC_START ++ c₂, [], []⟩, []) :=
    foldl_plain_sync c₂ h2
      ⟨⟨ParserState.Ground, [2026], [63]⟩, true, SYNC_START, [], []⟩ [] rfl rfl rfl
  have e5 : List.foldl processByte
      ((⟨⟨ParserState.Ground, [2026], [63]⟩, true, SYNC_START ++ c₂, [], []⟩ :
        OutputProcessor), []) SYNC_END =
      (⟨⟨ParserState.Ground, [2026], [63]⟩, false, (SYNC_START ++ c₂) ++ SYNC_END,
        [], []⟩, (SYNC_START ++ c₂) ++ SYNC_END) :=
    foldl_syncEnd_open
      ⟨⟨ParserState.Ground, [2026], [63]⟩, true, SYNC_START ++ c₂, [], []⟩ [] rfl rfl rfl
  unfold process
  rw [processRun_new]
  rw [List.foldl_append, List.foldl_append, List.foldl_append, List.foldl_append]
  rw [e1, e2, e3, e4, e5]
  rw [processFinish_no_pending
    ⟨⟨ParserState.Ground, [2026], [63]⟩, false, (SYNC_START ++ c₂) ++ SYNC_END, [], []⟩
    ((SYNC_START ++ c₂) ++ SYNC_END) rfl]
  simp

/-- Claim C9: a second sync-start scanned while a block is open discards
every byte buffered for the open block — the emitted output on close
consists of exactly one canonical marker, the bytes after the most
recent sync-start, and the canonical end marker, and the final engine
state retains nothing of the discarded bytes. -/
theorem claim_C9_nested_start_discards (c₁ c₂ : List Nat)
    (h1 : EscFree c₁) (h2 : EscFree c₂) :
    (process OutputProcessor.new
        (SYNC_START ++ c₁ ++ SYNC_START ++ c₂ ++ SYNC_END)).2
      = SYNC_START ++ c₂ ++ SYNC_END ∧
    (process OutputProcessor.new
        (SYNC_START ++ c₁ ++ SYNC_START ++ c₂ ++ SYNC_END)).1
      = ⟨⟨ParserState.Ground, [2026], [63]⟩, false,
          SYNC_START ++ c₂ ++ SYNC_END, [], []⟩ := by
  rw [process_nested_syncStart c₁ c₂ h1 h2]
  simp [List.append_assoc]

/-- Witness for claim C9 at concrete block contents. -/
theorem claim_C9_witness :
    (process OutputProcessor.new
        (SYNC_START ++ [97] ++ SYNC_START ++ [98] ++ SYNC_END)).2
      = SYNC_START ++ [98] ++ SYNC_END :=
  (claim_C9_nested_start_discards [97] [98] (by decide) (by decide)).1

/-! ## countPat lemmas for claim C3 -/

lemma countPat_cons (pat : List Nat) (b : Nat) (rest : List Nat) :
    countPat pat (b :: rest) =
      (if hasPat pat (b :: rest) then 1 else 0) + countPat pat rest := rfl

lemma countPat_escFree_append (xs ys : List Nat) (hx : EscFree xs) :
    countPat SYNC_START (xs ++ ys) = countPat SYNC_START ys := by
  induction xs with
  | nil => simp
  | cons b xs ih =>
      have hb : (27 : Nat) ≠ b := fun hEq => hx b (by simp) hEq.symm
      rw [List.cons_append, countPat_cons]
      have hno : hasPat SYNC_START (b :: (xs ++ ys)) = false := by
        simp [SYNC_START, hasPat, hb]
      rw [hno, ih (fun x hx' => hx x (by simp [hx']))]
      simp

lemma countPat_SS_head (zs : List Nat) :
    countPat SYNC_START (SYNC_START ++ zs) = 1 + countPat SYNC_START zs := by
  have htail : EscFree [91, 63, 50, 48, 50, 54, 104] := by decide
  show countPat SYNC_START (27 :: ([91, 63, 50, 48, 50, 54, 104] ++ zs)) =
    1 + countPat SYNC_START zs
  rw [countPat_cons]
  have hyes : hasPat SYNC_START (27 :: ([91, 63, 50, 48, 50, 54, 104] ++ zs)) = true := by
    simp [SYNC_START, hasPat]
  rw [hyes, countPat_escFree_append _ zs htail]
  simp

/-- Claim C3: a sync-start event arriving while a sync block is already
open results in exactly one canonical sync-start marker in the emitted
block (the opening marker is never duplicated), and a sync-end event
arriving when no block is open is a no-op: nothing is emitted, the block
stays closed, and the engine's buffers are left unchanged. -/
theorem claim_C3_no_duplicate_and_dangling_end :
    (∀ c₁ c₂ : List Nat, EscFree c₁ → EscFree c₂ →
      countPat SYNC_START
        ((process OutputProcessor.new
          (SYNC_START ++ c₁ ++ SYNC_START ++ c₂ ++ SYNC_END)).2) = 1) ∧
    (∀ op : OutputProcessor, op.parser.state = ParserState.Ground →
      op.pending_escape = [] → op.passthrough_buffer = [] → op.in_sync_block = false →
      (process op SYNC_END).2 = [] ∧
      (process op SYNC_END).1.in_sync_block = false ∧
      (process op SYNC_END).1.sync_buffer = op.sync_buffer ∧
      (process op SYNC_END).1.passthrough_buffer = [] ∧
      (process op SYNC_END).1.pending_escape = []) := by
  constructor
  · intro c₁ c₂ h1 h2
    rw [process_nested_syncStart c₁ c₂ h1 h2]
    rw [List.append_assoc, countPat_SS_head, countPat_escFree_append c₂ SYNC_END h2]
    have h0 : countPat SYNC_START SYNC_END = 0 := by decide
    rw [h0]
  · intro op hg hp hpt hs
    unfold process
    rw [processRun_clean op SYNC_END hpt, foldl_syncEnd_closed op [] hg hp hs]
    rw [processFinish_no_pending
      ⟨⟨ParserState.Ground, [2026], [63]⟩, false, op.sync_buffer,
        op.passthrough_buffer, []⟩ [] rfl]
    simp [hpt]

/-- Witness for claim C3: a nested sync-start at concrete contents yields
exactly one start marker, and a dangling sync-end at a concrete closed
state emits nothing and preserves the block buffer. -/
theorem claim_C3_witness :
    countPat SYNC_START
      ((process OutputProcessor.new
        (SYNC_START ++ [97] ++ SYNC_START ++ [98] ++ SYNC_END)).2) = 1 ∧
    (process (⟨⟨ParserState.Ground, [], []⟩, false, [104, 105], [], []⟩ :
        OutputProcessor) SYNC_END).2 = [] ∧
    (process (⟨⟨ParserState.Ground, [], []⟩, false, [104, 105], [], []⟩ :
        OutputProcessor) SYNC_END).1.sync_buffer = [104, 105] := by
  refine ⟨claim_C3_no_duplicate_and_dangling_end.1 [97] [98] (by decide) (by decide), ?_, ?_⟩
  · exact (claim_C3_no_duplicate_and_dangling_end.2
      ⟨⟨ParserState.Ground, [], []⟩, false, [104, 105], [], []⟩ rfl rfl rfl rfl).1
  · exact (claim_C3_no_duplicate_and_dangling_end.2
      ⟨⟨ParserState.Ground, [], []⟩, false, [104, 105], [], []⟩ rfl rfl rfl rfl).2.2.1

/-! ## History Buffer lemmas -/

lemma appendLines_eq (xs : List (List Nat)) :
    ∀ out, appendLines xs out = out ++ joinLines xs := by
  induction xs with
  | nil => intro out; simp [appendLines, joinLines]
  | cons l ls ih =>
      intro out
      show appendLines ls (out ++ l ++ [10]) = out ++ joinLines (l :: ls)
      rw [ih (out ++ l ++ [10])]
      simp [joinLines]

lemma joinLines_length (xs : List (List Nat)) :
    (joinLines xs).length = sumBytes xs := by
  induction xs with
  | nil => rfl
  | cons l ls ih => simp [joinLines, sumBytes, ih]; omega

lemma joinLines_append (xs ys : List (List Nat)) :
    joinLines (xs ++ ys) = joinLines xs ++ joinLines ys := by
  induction xs with
  | nil => simp [joinLines]
  | cons l ls ih => simp [joinLines, ih]

lemma push_bytes_append (lb : LineBuffer) (a b : List Nat) :
    push_bytes lb (a ++ b) = push_bytes (push_bytes lb a) b := by
  unfold push_bytes
  rw [List.foldl_append]

lemma push_bytes_plain (L : List Nat) (hL : 10 ∉ L) :
    ∀ lb : LineBuffer, push_bytes lb L =
      { lb with current_line := lb.current_line ++ L } := by
  induction L with
  | nil => intro lb; simp [push_bytes]
  | cons b L ih =>
      intro lb
      have hb : b ≠ 10 := fun h => hL (by simp [h])
      show push_bytes (push_byte lb b) L = _
      rw [(by unfold push_byte; rw [if_neg hb] :
        push_byte lb b = { lb with current_line := lb.current_line ++ [b] })]
      rw [ih (fun h => hL (by simp [h])) { lb with current_line := lb.current_line ++ [b] }]
      simp

lemma lastN_of_le (c : Nat) (xs : List (List Nat)) (h : xs.length ≤ c) :
    lastN c xs = xs := by
  unfold lastN
  rw [Nat.sub_eq_zero_of_le h, List.drop_zero]

lemma lastN_zero (xs : List (List Nat)) : lastN 0 xs = [] := by
  unfold lastN
  rw [Nat.sub_zero, List.drop_length]

lemma lastN_cons_of_le (c : Nat) (x : List Nat) (t : List (List Nat))
    (h : c ≤ t.length) :
    lastN c (x :: t) = lastN c t := by
  unfold lastN
  rw [List.length_cons]
  have harith : t.length + 1 - c = (t.length - c) + 1 := by omega
  rw [harith, List.drop_succ_cons]

/-- Inserting newline-terminated lines into a buffer with an empty tail
and at most max-lines stored lines: the stored lines afterwards are the
last max-lines of the previously stored plus inserted lines, and the
tail stays empty. -/
lemma pushAll_lines : ∀ (ls : List (List Nat)) (lb : LineBuffer),
    (∀ L ∈ ls, 10 ∉ L) → lb.current_line = [] → lb.lines.length ≤ lb.max_lines →
    (push_bytes lb (joinLines ls)).lines = lastN lb.max_lines (lb.lines ++ ls) ∧
    (push_bytes lb (joinLines ls)).current_line = [] ∧
    (push_bytes lb (joinLines ls)).max_lines = lb.max_lines := by
  intro ls
  induction ls with
  | nil =>
      intro lb _ hcur hlen
      refine ⟨?_, hcur, rfl⟩
      show lb.lines = lastN lb.max_lines (lb.lines ++ [])
      rw [List.append_nil, lastN_of_le lb.max_lines lb.lines hlen]
  | cons L ls ih =>
      intro lb hnl hcur hlen
      have hL : 10 ∉ L := hnl L (by simp)
      have hplain : push_bytes lb L = { lb with current_line := L } := by
        rw [push_bytes_plain L hL lb, hcur]
        rw [List.nil_append]
      by_cases hev : lb.lines.length + 1 ≤ lb.max_lines
      · have hstep : push_byte { lb with current_line := L } 10 =
            { lb with
              lines := lb.lines ++ [L]
              current_line := []
              cached_bytes := lb.cached_bytes + L.length + 1 } := by
          unfold push_byte
          rw [if_pos rfl]
          dsimp only
          rw [if_neg (by
            simp only [List.length_append, List.length_cons, List.length_nil]
            omega)]
        have hsplit : push_bytes lb (joinLines (L :: ls)) =
            push_bytes
              { lb with
                lines := lb.lines ++ [L]
                current_line := []
                cached_bytes := lb.cached_bytes + L.length + 1 }
              (joinLines ls) := by
          show push_bytes lb ((L ++ [10]) ++ joinLines ls) = _
          rw [push_bytes_append, push_bytes_append, hplain]
          show push_bytes (push_byte { lb with current_line := L } 10) (joinLines ls) = _
          rw [hstep]
        rw [hsplit]
        obtain ⟨ha, hb, hc⟩ := ih
          { lb with
            lines := lb.lines ++ [L]
            current_line := []
            cached_bytes := lb.cached_bytes + L.length + 1 }
          (fun x hx => hnl x (by simp [hx])) rfl (by simpa using hev)
        refine ⟨?_, hb, hc⟩
        rw [ha]
        dsimp only
        simp [List.append_assoc]
      · have hmax : lb.lines.length = lb.max_lines := by omega
        cases hlines : lb.lines with
        | nil =>
            have hmax0 : lb.max_lines = 0 := by rw [← hmax, hlines]; rfl
            have hstep : push_byte { lb with current_line := L } 10 =
                { lb with
                  lines := []
                  current_line := []
                  cached_bytes := lb.cached_bytes + L.length + 1 - (L.length + 1) } := by
              unfold push_byte
              rw [if_pos rfl]
              dsimp only
              rw [hlines, List.nil_append, if_pos (by rw [hmax0]; simp)]
            have hsplit : push_bytes lb (joinLines (L :: ls)) =
                push_bytes
                  { lb with
                    lines := []
                    current_line := []
                    cached_bytes := lb.cached_bytes + L.length + 1 - (L.length + 1) }
                  (joinLines ls) := by
              show push_bytes lb ((L ++ [10]) ++ joinLines ls) = _
              rw [push_bytes_append, push_bytes_append, hplain]
              show push_bytes (push_byte { lb with current_line := L } 10)
                (joinLines ls) = _
              rw [hstep]
            rw [hsplit]
            obtain ⟨ha, hb, hc⟩ := ih
              { lb with
                lines := []
                current_line := []
                cached_bytes := lb.cached_bytes + L.length + 1 - (L.length + 1) }
              (fun x hx => hnl x (by simp [hx])) rfl (by simp)
            refine ⟨?_, hb, hc⟩
            rw [ha]
            dsimp only
            rw [hmax0, lastN_zero, lastN_zero]
        | cons l lt =>
            have hmax1 : lt.length + 1 = lb.max_lines := by
              rw [hlines] at hmax
              simpa using hmax
            have hstep : push_byte { lb with current_line := L } 10 =
                { lb with
                  lines := lt ++ [L]
                  current_line := []
                  cached_bytes := lb.cached_bytes + L.length + 1 - (l.length + 1) } := by
              unfold push_byte
              rw [if_pos rfl]
              dsimp only
              rw [hlines, List.cons_append, if_pos (by
                simp only [List.length_cons, List.length_append, List.length_nil]
                omega)]
            have hsplit : push_bytes lb (joinLines (L :: ls)) =
                push_bytes
                  { lb with
                    lines := lt ++ [L]
                    current_line := []
                    cached_bytes := lb.cached_bytes + L.length + 1 - (l.length + 1) }
                  (joinLines ls) := by
              show push_bytes lb ((L ++ [10]) ++ joinLines ls) = _
              rw [push_bytes_append, push_bytes_append, hplain]
              show push_bytes (push_byte { lb with current_line := L } 10)
                (joinLines ls) = _
              rw [hstep]
            rw [hsplit]
            obtain ⟨ha, hb, hc⟩ := ih
              { lb with
                lines := lt ++ [L]
                current_line := []
                cached_bytes := lb.cached_bytes + L.length + 1 - (l.length + 1) }
              (fun x hx => hnl x (by simp [hx])) rfl
              (by
                dsimp only
                simp only [List.length_append, List.length_cons, List.length_nil]
                omega)
            refine ⟨?_, hb, hc⟩
            rw [ha]
            dsimp only
            rw [List.cons_append, lastN_cons_of_le lb.max_lines l (lt ++ L :: ls)
              (by
                simp only [List.length_append, List.length_cons]
                omega)]
            simp [List.append_assoc]

lemma append_all_eq (lb : LineBuffer) (out : List Nat) :
    append_all lb out = out ++ joinLines lb.lines ++ lb.current_line := by
  unfold append_all
  rw [appendLines_eq]
  by_cases h : lb.current_line = []
  · rw [if_neg (not_not_intro h), h, List.append_nil]
  · rw [if_pos h]

/-- Claim C5: inserting k newline-terminated lines into a History Buffer
of capacity c with c < k leaves exactly the last c lines stored in their
original order, the tail empty, and appendAll reproduces exactly those
last c lines with their terminator bytes (including any carriage return
kept inside the line) verbatim; insertion beyond capacity evicts the
oldest completed lines. -/
theorem claim_C5_eviction_last_c (c : Nat) (ls : List (List Nat))
    (hnl : ∀ L ∈ ls, 10 ∉ L) (_hck : c < ls.length) :
    (push_bytes (LineBuffer.new c) (joinLines ls)).lines = lastN c ls ∧
    (push_bytes (LineBuffer.new c) (joinLines ls)).current_line = [] ∧
    append_all (push_bytes (LineBuffer.new c) (joinLines ls)) []
      = joinLines (lastN c ls) := by
  obtain ⟨ha, hb, hc2⟩ :=
    pushAll_lines ls (LineBuffer.new c) hnl rfl (by simp [LineBuffer.new])
  refine ⟨ha, hb, ?_⟩
  rw [append_all_eq, ha, hb]
  show [] ++ joinLines (lastN c ([] ++ ls)) ++ [] = joinLines (lastN c ls)
  simp

/-- Witness for claim C5 at capacity 2 and three lines, one of them a
CRLF-terminated line whose carriage return is preserved. -/
theorem claim_C5_witness :
    (push_bytes (LineBuffer.new 2) (joinLines [[97], [98, 13], [99]])).lines
      = lastN 2 [[97], [98, 13], [99]] ∧
    (push_bytes (LineBuffer.new 2) (joinLines [[97], [98, 13], [99]])).current_line
      = [] ∧
    append_all (push_bytes (LineBuffer.new 2) (joinLines [[97], [98, 13], [99]])) []
      = joinLines (lastN 2 [[97], [98, 13], [99]]) :=
  claim_C5_eviction_last_c 2 [[97], [98, 13], [99]] (by decide) (by decide)

/-! ## History Buffer byte accounting -/

lemma sumBytes_nil : sumBytes [] = 0 := rfl

lemma sumBytes_cons (l : List Nat) (ls : List (List Nat)) :
    sumBytes (l :: ls) = l.length + 1 + sumBytes ls := rfl

lemma sumBytes_append (xs : List (List Nat)) (l : List Nat) :
    sumBytes (xs ++ [l]) = sumBytes xs + (l.length + 1) := by
  induction xs with
  | nil =>
      simp only [List.nil_append, sumBytes_cons, sumBytes_nil]
      omega
  | cons x xs ih =>
      simp only [List.cons_append, sumBytes_cons, ih]
      omega

lemma inv_push_byte (lb : LineBuffer) (h : lb.cached_bytes = sumBytes lb.lines)
    (b : Nat) :
    (push_byte lb b).cached_bytes = sumBytes (push_byte lb b).lines := by
  unfold push_byte
  by_cases hb : b = 10
  · rw [if_pos hb]
    by_cases hev : (lb.lines ++ [lb.current_line]).length > lb.max_lines
    · rw [if_pos hev]
      rcases hl : lb.lines ++ [lb.current_line] with _ | ⟨removed, rest⟩
      · exact absurd hl (by simp)
      · dsimp only
        have hsum : sumBytes (removed :: rest)
            = sumBytes lb.lines + (lb.current_line.length + 1) := by
          rw [← hl, sumBytes_append]
        simp only [sumBytes_cons] at hsum
        omega
    · rw [if_neg hev]
      dsimp only
      rw [sumBytes_append]
      omega
  · rw [if_neg hb]
    exact h

lemma inv_applyOps (ops : List HistoryOp) :
    ∀ lb : LineBuffer, lb.cached_bytes = sumBytes lb.lines →
      (applyOps lb ops).cached_bytes = sumBytes (applyOps lb ops).lines := by
  induction ops with
  | nil => intro lb h; exact h
  | cons op ops ih =>
      intro lb h
      show (applyOps (applyOp lb op) ops).cached_bytes = _
      apply ih
      cases op with
      | push b => exact inv_push_byte lb h b
      | clearAll => simp [applyOp, LineBuffer.clear, sumBytes]

/-- Claim C6: after every sequence of record/push and clear operations,
the tracked byte count equals the sum of the stored completed lines'
lengths plus one per stored line plus the pending tail's length, and
therefore equals the length of the output appendAll would produce. -/
theorem claim_C6_total_bytes_invariant (c : Nat) (ops : List HistoryOp) :
    total_bytes (applyOps (LineBuffer.new c) ops) =
      sumBytes (applyOps (LineBuffer.new c) ops).lines
        + (applyOps (LineBuffer.new c) ops).current_line.length ∧
    total_bytes (applyOps (LineBuffer.new c) ops) =
      (append_all (applyOps (LineBuffer.new c) ops) []).length := by
  have hinv := inv_applyOps ops (LineBuffer.new c) rfl
  constructor
  · unfold total_bytes
    rw [hinv]
  · unfold total_bytes
    rw [append_all_eq, hinv]
    simp [joinLines_length]

/-! ## History Buffer window views -/

lemma line_count_empty_tail (lb : LineBuffer) (h : lb.current_line = []) :
    line_count lb = lb.lines.length := by
  simp [line_count, h]

lemma line_count_with_tail (lb : LineBuffer) (h : lb.current_line ≠ []) :
    line_count lb = lb.lines.length + 1 := by
  simp [line_count, h]

lemma append_last_n_zero (lb : LineBuffer) (out : List Nat) :
    append_last_n_lines lb 0 out = out := by
  unfold append_last_n_lines
  rw [if_neg (by intro h; exact absurd h.2 (by omega))]
  rw [Nat.min_eq_right (by
    unfold line_count
    by_cases h : lb.current_line = [] <;> simp [h])]
  rw [List.drop_length]
  rfl

lemma append_last_n_all (lb : LineBuffer) (n : Nat) (out : List Nat)
    (h : line_count lb ≤ n) :
    append_last_n_lines lb n out = append_all lb out := by
  unfold append_last_n_lines append_all
  have h0 : line_count lb - n = 0 := Nat.sub_eq_zero_of_le h
  rw [h0, Nat.zero_min, List.drop_zero]
  by_cases hc : lb.current_line = []
  · rw [if_neg (by simp [hc]), if_neg (not_not_intro hc)]
  · rw [if_pos ⟨hc, by rw [line_count_with_tail lb hc]; omega⟩, if_pos hc]

lemma append_last_n_no_tail (lb : LineBuffer) (n : Nat) (out : List Nat)
    (h : lb.current_line = []) :
    append_last_n_lines lb n out = out ++ joinLines (lastN n lb.lines) := by
  unfold append_last_n_lines
  rw [if_neg (by simp [h])]
  rw [appendLines_eq]
  rw [(by
    rw [line_count_empty_tail lb h]
    exact Nat.min_eq_left (Nat.sub_le _ _) :
      min (line_count lb - n) lb.lines.length = lb.lines.length - n)]
  rfl

lemma append_last_n_with_tail (lb : LineBuffer) (n : Nat) (out : List Nat)
    (hc : lb.current_line ≠ []) (hn : 1 ≤ n) :
    append_last_n_lines lb n out =
      out ++ joinLines (lastN (n - 1) lb.lines) ++ lb.current_line := by
  unfold append_last_n_lines
  have hcount : line_count lb = lb.lines.length + 1 := line_count_with_tail lb hc
  rw [if_pos ⟨hc, by rw [hcount]; omega⟩]
  rw [appendLines_eq]
  rw [(by
    rw [hcount]
    rw [Nat.min_eq_left (by omega)]
    omega : min (line_count lb - n) lb.lines.length = lb.lines.length - (n - 1))]
  rfl

/-- Claim C7: appendLastN(0) appends nothing; appendLastN(n) for n at
least the buffer's line count appends exactly what appendAll appends;
and when the window reaches the most recent data the pending
unterminated tail is included — zero or oversized windows are clamped,
never an error. -/
theorem claim_C7_window_clamped (lb : LineBuffer) (n : Nat) (out : List Nat) :
    append_last_n_lines lb 0 out = out ∧
    (line_count lb ≤ n → append_last_n_lines lb n out = append_all lb out) ∧
    (1 ≤ n → lb.current_line ≠ [] →
      ∃ mid, append_last_n_lines lb n out = out ++ mid ++ lb.current_line) :=
  ⟨append_last_n_zero lb out, fun h => append_last_n_all lb n out h,
    fun h1 h2 => ⟨joinLines (lastN (n - 1) lb.lines),
      append_last_n_with_tail lb n out h2 h1⟩⟩

/-- Witness for claim C7 at a concrete buffer with two stored lines and
a pending tail. -/
theorem claim_C7_witness :
    append_last_n_lines (⟨[[97], [98]], [99], 10, 6⟩ : LineBuffer) 0 [] = [] ∧
    append_last_n_lines (⟨[[97], [98]], [99], 10, 6⟩ : LineBuffer) 5 []
      = append_all (⟨[[97], [98]], [99], 10, 6⟩ : LineBuffer) [] ∧
    ∃ mid, append_last_n_lines (⟨[[97], [98]], [99], 10, 6⟩ : LineBuffer) 2 []
      = [] ++ mid ++ [99] :=
  ⟨(claim_C7_window_clamped ⟨[[97], [98]], [99], 10, 6⟩ 0 []).1,
    (claim_C7_window_clamped ⟨[[97], [98]], [99], 10, 6⟩ 5 []).2.1 (by decide),
    (claim_C7_window_clamped ⟨[[97], [98]], [99], 10, 6⟩ 2 []).2.2
      (by decide) (by decide)⟩

/-- Claim C10: lineCount equals the number of completed stored lines,
plus one exactly when the pending unterminated tail is non-empty; and
the tail counts as the most recent line for appendLastN windowing only
when it is non-empty. -/
theorem claim_C10_line_count_tail (lb : LineBuffer) (n : Nat) (out : List Nat) :
    line_count lb = lb.lines.length + (if lb.current_line = [] then 0 else 1) ∧
    (lb.current_line = [] →
      append_last_n_lines lb n out = out ++ joinLines (lastN n lb.lines)) ∧
    (lb.current_line ≠ [] → 1 ≤ n →
      append_last_n_lines lb n out =
        out ++ joinLines (lastN (n - 1) lb.lines) ++ lb.current_line) :=
  ⟨rfl, fun h => append_last_n_no_tail lb n out h,
    fun h1 h2 => append_last_n_with_tail lb n out h1 h2⟩

/-- Witness for claim C10: the empty-tail and non-empty-tail windowing
behaviours at concrete buffers. -/
theorem claim_C10_witness :
    append_last_n_lines (⟨[[97], [98]], [], 10, 6⟩ : LineBuffer) 1 []
      = [] ++ joinLines (lastN 1 [[97], [98]]) ∧
    append_last_n_lines (⟨[[97], [98]], [99], 10, 6⟩ : LineBuffer) 1 []
      = [] ++ joinLines (lastN 0 [[97], [98]]) ++ [99] :=
  ⟨(claim_C10_line_count_tail ⟨[[97], [98]], [], 10, 6⟩ 1 []).2.1 rfl,
    (claim_C10_line_count_tail ⟨[[97], [98]], [99], 10, 6⟩ 1 []).2.2
      (by decide) (by decide)⟩

/-! ## Script parser lemmas -/

lemma firstNewlineIdx_cons (b : Nat) (rest : List Nat) :
    firstNewlineIdx (b :: rest) =
      if b = 10 then some 0 else (firstNewlineIdx rest).map (· + 1) := rfl

lemma firstNewlineIdx_append_no_nl (xs ys : List Nat) (h : ∀ x ∈ xs, x ≠ 10) :
    firstNewlineIdx (xs ++ ys) = (firstNewlineIdx ys).map (· + xs.length) := by
  induction xs with
  | nil =>
      simp only [List.nil_append, List.length_nil]
      cases hy : firstNewlineIdx ys <;> simp [hy]
  | cons b xs ih =>
      have hb : b ≠ 10 := h b (by simp)
      show firstNewlineIdx (b :: (xs ++ ys)) = _
      rw [firstNewlineIdx_cons, if_neg hb, ih (fun x hx => h x (by simp [hx]))]
      cases hy : firstNewlineIdx ys <;> simp [hy]
      omega

lemma scriptStartedMarker_no_nl : ∀ x ∈ scriptStartedMarker, x ≠ 10 := by decide

lemma find_header_end_wf (hrest tail : List Nat) (hnl : ∀ x ∈ hrest, x ≠ 10) :
    find_script_header_end (scriptStartedMarker ++ (hrest ++ (10 :: tail)))
      = 17 + hrest.length + 1 := by
  unfold find_script_header_end
  rw [List.take_left, if_pos rfl]
  rw [firstNewlineIdx_append_no_nl scriptStartedMarker _ scriptStartedMarker_no_nl]
  rw [firstNewlineIdx_append_no_nl hrest _ hnl]
  rw [(rfl : firstNewlineIdx (10 :: tail) = some 0)]
  show 0 + hrest.length + scriptStartedMarker.length + 1 = 17 + hrest.length + 1
  have h17 : scriptStartedMarker.length = 17 := rfl
  omega

lemma find_header_end_no_marker (d : List Nat)
    (h : ¬ (d.take scriptStartedMarker.length = scriptStartedMarker)) :
    find_script_header_end d = 0 := by
  unfold find_script_header_end
  rw [if_neg h]

lemma stripHeaderLoopF_stop (fuel : Nat) (d : List Nat)
    (h : find_script_header_end d = 0) : stripHeaderLoopF fuel d = d := by
  cases fuel with
  | zero => rfl
  | succ fuel =>
      unfold stripHeaderLoopF
      rw [if_pos h]

lemma stripHeaderLoopF_step (fuel : Nat) (d : List Nat)
    (h : find_script_header_end d ≠ 0) :
    stripHeaderLoopF (fuel + 1) d
      = stripHeaderLoopF fuel (d.drop (find_script_header_end d)) := by
  show (if find_script_header_end d = 0 then d
        else stripHeaderLoopF fuel (d.drop (find_script_header_end d)))
      = stripHeaderLoopF fuel (d.drop (find_script_header_end d))
  rw [if_neg h]

lemma stripFooterLoopF_stop (fuel : Nat) (d : List Nat)
    (h : ¬ find_script_footer_start d < d.length) : stripFooterLoopF fuel d = d := by
  cases fuel with
  | zero => rfl
  | succ fuel =>
      unfold stripFooterLoopF
      rw [if_neg h]

lemma stripFooterLoopF_step (fuel : Nat) (d : List Nat)
    (h : find_script_footer_start d < d.length) :
    stripFooterLoopF (fuel + 1) d
      = stripFooterLoopF fuel (d.take (find_script_footer_start d)) := by
  show (if find_script_footer_start d < d.length
        then stripFooterLoopF fuel (d.take (find_script_footer_start d)) else d)
      = stripFooterLoopF fuel (d.take (find_script_footer_start d))
  rw [if_pos h]

lemma footerScanAux_finds (d : List Nat) (t : Nat)
    (ht : (d.drop t).take footerMarker.length = footerMarker)
    (huniq : ∀ j, j < d.length →
      (d.drop j).take footerMarker.length = footerMarker → j = t) :
    ∀ i, i < d.length → t ≤ i → footerScanAux d i = t := by
  intro i
  induction i with
  | zero =>
      intro _ h0
      have ht0 : t = 0 := Nat.le_zero.mp h0
      subst ht0
      unfold footerScanAux
      rw [if_pos ht]
  | succ i ih =>
      intro hilen hti
      unfold footerScanAux
      by_cases hocc : (d.drop (i + 1)).take footerMarker.length = footerMarker
      · rw [if_pos hocc]
        exact (huniq (i + 1) hilen hocc).symm ▸ rfl
      · rw [if_neg hocc]
        apply ih (by omega)
        rcases Nat.lt_or_ge t (i + 1) with hlt | hge
        · omega
        · exact absurd (((by omega : t = i + 1) ▸ ht)) hocc

lemma footerScanAux_none (d : List Nat)
    (hno : ∀ j, j < d.length →
      ¬ ((d.drop j).take footerMarker.length = footerMarker)) :
    ∀ i, i < d.length → footerScanAux d i = d.length := by
  intro i
  induction i with
  | zero =>
      intro hi
      unfold footerScanAux
      rw [if_neg (hno 0 hi)]
  | succ i ih =>
      intro hi
      unfold footerScanAux
      rw [if_neg (hno (i + 1) hi)]
      exact ih (by omega)

lemma find_footer_start_finds (d : List Nat) (t : Nat)
    (ht : (d.drop t).take footerMarker.length = footerMarker)
    (huniq : ∀ j, j < d.length →
      (d.drop j).take footerMarker.length = footerMarker → j = t)
    (hrange : t + footerMarker.length < d.length) :
    find_script_footer_start d = t := by
  have h15 : footerMarker.length = 15 := rfl
  unfold find_script_footer_start
  rw [if_neg (by omega)]
  exact footerScanAux_finds d t ht huniq _ (by omega) (by omega)

lemma find_footer_start_none (d : List Nat)
    (hno : ∀ j, j < d.length →
      ¬ ((d.drop j).take footerMarker.length = footerMarker)) :
    find_script_footer_start d = d.length := by
  have h15 : footerMarker.length = 15 := rfl
  unfold find_script_footer_start
  by_cases h : d.length ≤ footerMarker.length
  · rw [if_pos h]
  · rw [if_neg h]
    exact footerScanAux_none d hno _ (by omega)

/-- An occurrence of the footer marker inside a window that fits
entirely within the left part of an append is an occurrence in the
whole. -/
lemma occ_append_of_occ_left (C X : List Nat) (j : Nat)
    (h : (C.drop j).take footerMarker.length = footerMarker) :
    ((C ++ X).drop j).take footerMarker.length = footerMarker := by
  have hlen : footerMarker.length ≤ (C.drop j).length := by
    have := congrArg List.length h
    simp only [List.length_take] at this
    omega
  rw [List.drop_append_eq_append_drop, List.take_append_eq_append_take]
  rw [h]
  rw [(by omega : footerMarker.length - (C.drop j).length = 0)]
  simp

/-- Stripping the header wrapper from a stream of the form
header-line ++ body, where the body does not itself begin with the
header marker. -/
lemma stripHeaderLoop_wf (hrest body : List Nat)
    (hnl : ∀ x ∈ hrest, x ≠ 10)
    (hbody : ¬ (body.take scriptStartedMarker.length = scriptStartedMarker)) :
    stripHeaderLoop (scriptStartedMarker ++ (hrest ++ (10 :: body))) = body := by
  have hfind := find_header_end_wf hrest body hnl
  unfold stripHeaderLoop
  obtain ⟨m, hm⟩ :
      ∃ m, (scriptStartedMarker ++ (hrest ++ (10 :: body))).length = m + 1 :=
    ⟨(scriptStartedMarker ++ (hrest ++ (10 :: body))).length - 1, by
      have h17 : scriptStartedMarker.length = 17 := rfl
      simp only [List.length_append, List.length_cons]
      omega⟩
  rw [hm, stripHeaderLoopF_step m _ (by rw [hfind]; omega)]
  rw [hfind]
  have hdrop : (scriptStartedMarker ++ (hrest ++ (10 :: body))).drop
      (17 + hrest.length + 1) = body := by
    have hsh : scriptStartedMarker ++ (hrest ++ (10 :: body))
        = (scriptStartedMarker ++ hrest ++ [10]) ++ body := by simp
    have hlen2 : 17 + hrest.length + 1
        = (scriptStartedMarker ++ hrest ++ [10]).length := by
      simp [scriptStartedMarker]
      omega
    rw [hsh, hlen2, List.drop_left]
  rw [hdrop]
  exact stripHeaderLoopF_stop m body (find_header_end_no_marker body hbody)

/-- Stripping the footer wrapper from a stream of the form
content ++ footer, where the footer marker occurs only at the content
boundary and at least one byte follows the marker. -/
lemma stripFooterLoop_wf (C frest : List Nat)
    (huniq : ∀ j, j < (C ++ (footerMarker ++ frest)).length →
      (((C ++ (footerMarker ++ frest)).drop j).take footerMarker.length
          = footerMarker) → j = C.length)
    (hfr : frest ≠ []) :
    stripFooterLoop (C ++ (footerMarker ++ frest)) = C := by
  have h15 : footerMarker.length = 15 := rfl
  have hflen : 0 < frest.length := List.length_pos.mpr hfr
  have hocc : ((C ++ (footerMarker ++ frest)).drop C.length).take
      footerMarker.length = footerMarker := by
    rw [List.drop_left]
    exact List.take_left footerMarker frest
  have hfind := find_footer_start_finds (C ++ (footerMarker ++ frest)) C.length
    hocc huniq
    (by simp only [List.length_append]; omega)
  unfold stripFooterLoop
  obtain ⟨m, hm⟩ : ∃ m, (C ++ (footerMarker ++ frest)).length = m + 1 :=
    ⟨(C ++ (footerMarker ++ frest)).length - 1, by
      simp only [List.length_append]
      omega⟩
  rw [hm, stripFooterLoopF_step m _ (by
    rw [hfind]
    simp only [List.length_append]
    omega)]
  rw [hfind, List.take_left]
  have hno : ∀ j, j < C.length →
      ¬ ((C.drop j).take footerMarker.length = footerMarker) := by
    intro j _ hj
    have hlen : footerMarker.length ≤ (C.drop j).length := by
      have hlg := congrArg List.length hj
      simp only [List.length_take] at hlg
      omega
    simp only [List.length_drop] at hlen
    have hjC := huniq j
      (by simp only [List.length_append]; omega)
      (occ_append_of_occ_left C _ j hj)
    omega
  exact stripFooterLoopF_stop m C (by
    rw [find_footer_start_none C hno]
    omega)

/-- Counterexample to claim C8 as stated: the stream
Script started on 2024-01-01 NL content NL Script done on — whose footer
is a newline followed by Script done on with nothing after it — keeps
its footer after stripping, because the reverse scan of
find_script_footer_start never examines the window that ends exactly at
end of input; the result is content NL Script done on, not content. -/
theorem claim_C8_counterexample :
    strip_script_wrapper
        [83, 99, 114, 105, 112, 116, 32, 115, 116, 97, 114, 116, 101, 100, 32,
         111, 110, 32, 50, 48, 50, 52, 45, 48, 49, 45, 48, 49, 10,
         99, 111, 110, 116, 101, 110, 116,
         10, 83, 99, 114, 105, 112, 116, 32, 100, 111, 110, 101, 32, 111, 110]
      = [99, 111, 110, 116, 101, 110, 116,
         10, 83, 99, 114, 105, 112, 116, 32, 100, 111, 110, 101, 32, 111, 110] ∧
    strip_script_wrapper
        [83, 99, 114, 105, 112, 116, 32, 115, 116, 97, 114, 116, 101, 100, 32,
         111, 110, 32, 50, 48, 50, 52, 45, 48, 49, 45, 48, 49, 10,
         99, 111, 110, 116, 101, 110, 116,
         10, 83, 99, 114, 105, 112, 116, 32, 100, 111, 110, 101, 32, 111, 110]
      ≠ [99, 111, 110, 116, 101, 110, 116] :=
  ⟨by decide, by decide⟩

/-- Claim C8 as amended: for a stream header ++ content ++ footer where
the header is Script started on ... terminated by its first newline, the
footer is a newline followed by Script done on followed by at least one
further byte, the content does not begin with the header marker, and the
footer marker occurs nowhere but at the content-footer boundary, the
stripping function removes both wrappers and returns exactly the
content; and a stream with neither header nor footer is returned
unchanged. -/
theorem claim_C8_strip_wrapper :
    (∀ hrest C frest : List Nat,
      (∀ x ∈ hrest, x ≠ 10) →
      ¬ ((C ++ (footerMarker ++ frest)).take scriptStartedMarker.length
          = scriptStartedMarker) →
      (∀ j, j < (C ++ (footerMarker ++ frest)).length →
        (((C ++ (footerMarker ++ frest)).drop j).take footerMarker.length
            = footerMarker) → j = C.length) →
      frest ≠ [] →
      strip_script_wrapper
          (scriptStartedMarker ++ (hrest ++ (10 :: (C ++ (footerMarker ++ frest)))))
        = C) ∧
    (∀ d : List Nat,
      ¬ (d.take scriptStartedMarker.length = scriptStartedMarker) →
      (∀ j, j < d.length →
        ¬ ((d.drop j).take footerMarker.length = footerMarker)) →
      strip_script_wrapper d = d) := by
  constructor
  · intro hrest C frest hnl hC huniq hfr
    unfold strip_script_wrapper
    rw [stripHeaderLoop_wf hrest _ hnl hC]
    exact stripFooterLoop_wf C frest huniq hfr
  · intro d hh hf
    unfold strip_script_wrapper
    rw [(by
      unfold stripHeaderLoop
      exact stripHeaderLoopF_stop _ _ (find_header_end_no_marker d hh) :
        stripHeaderLoop d = d)]
    unfold stripFooterLoop
    exact stripFooterLoopF_stop _ _ (by
      rw [find_footer_start_none d hf]
      omega)

/-- Witness for claim C8: the spec's own example stream with dated
header and dated footer strips to exactly the content, and a plain
stream with neither wrapper is unchanged. -/
theorem claim_C8_witness :
    strip_script_wrapper
        (scriptStartedMarker
          ++ ([32, 50, 48, 50, 52, 45, 48, 49, 45, 48, 49]
            ++ (10 :: ([99, 111, 110, 116, 101, 110, 116]
              ++ (footerMarker ++ [32, 50, 48, 50, 52, 45, 48, 49, 45, 48, 49])))))
      = [99, 111, 110, 116, 101, 110, 116] ∧
    strip_script_wrapper [104, 105] = [104, 105] :=
  ⟨claim_C8_strip_wrapper.1 [32, 50, 48, 50, 52, 45, 48, 49, 45, 48, 49]
      [99, 111, 110, 116, 101, 110, 116] [32, 50, 48, 50, 52, 45, 48, 49, 45, 48, 49]
      (by decide) (by decide) (by decide) (by decide),
    claim_C8_strip_wrapper.2 [104, 105] (by decide) (by decide)⟩

end ClaudeChill
